import Mathlib

/-!
Verification of the HLE quiz-serving backend (adaptive question selection
and quiz session layer). The Python sources `mcp_server/mcp_hle_server.py`
and `hle_pipeline/core/database_manager.py` are shallowly embedded below:
the SQLite `questions` table becomes a list of records, SQL `WHERE` clauses
become boolean predicates, `ORDER BY RANDOM() LIMIT 1` becomes a seeded
pick, and `McpError` raising becomes `Except`.
-/

set_option autoImplicit false

namespace HLE

/-- A row of the `questions` table (schema from
`DatabaseManager.init_database`).  `answer`/`explanation` NULLs are coerced
to `""` by the readers (`row["answer"] or ""`), so plain `String` fields
suffice. -/
structure QuestionRec where
  id : String
  question : String
  answer : String
  subject : String
  raw_subject : String
  difficulty : String
  explanation : String
  question_type : String
  image : String
deriving Repr, DecidableEq

/-- The ASCII whitespace characters removed by Python's `str.strip()`. -/
def isSpace (c : Char) : Bool :=
  c == ' ' || c == '\t' || c == '\n' || c == '\r' || c == '\x0b' || c == '\x0c'

/-- Python `s.strip().lower()`, the normalization applied to submitted
answers and ground truths in `check_answer` (ASCII lowercasing; the
strings this backend compares are ASCII). -/
def pyNorm (s : String) : String :=
  String.mk ((((s.data.dropWhile isSpace).reverse.dropWhile isSpace).reverse).map Char.toLower)

/-- Bool test that `a` is an initial segment of `b` (helper for the
embedding of Python's substring operator `in`). -/
def headSegB : List Char → List Char → Bool
  | [], _ => true
  | _ :: _, [] => false
  | a :: as, b :: bs => a == b && headSegB as bs

/-- Bool test that `nee` occurs contiguously inside `hay`: the embedding of
Python's `nee in hay` on strings, over the character lists. -/
def substrLB (nee : List Char) : List Char → Bool
  | [] => nee.isEmpty
  | b :: bs => headSegB nee (b :: bs) || substrLB nee bs

/-- Python's `nee in hay` for strings. -/
def pySubstr (nee hay : String) : Bool := substrLB nee.data hay.data

theorem headSegB_iff (a : List Char) : ∀ b : List Char,
    headSegB a b = true ↔ ∃ t, b = a ++ t := by
  induction a with
  | nil =>
    intro b
    simp [headSegB]
  | cons x xs ih =>
    intro b
    cases b with
    | nil =>
      simp [headSegB]
    | cons y ys =>
      simp only [headSegB, Bool.and_eq_true, beq_iff_eq, ih]
      constructor
      · rintro ⟨rfl, t, rfl⟩
        exact ⟨t, rfl⟩
      · rintro ⟨t, ht⟩
        injection ht with h1 h2
        exact ⟨h1.symm, t, h2⟩

theorem substrLB_iff (a : List Char) : ∀ b : List Char,
    substrLB a b = true ↔ ∃ s t, b = s ++ a ++ t := by
  intro b
  induction b with
  | nil =>
    simp only [substrLB, List.isEmpty_iff]
    constructor
    · rintro rfl
      exact ⟨[], [], rfl⟩
    · rintro ⟨s, t, ht⟩
      have := ht.symm
      simp only [List.append_eq_nil] at this
      exact this.1.2
  | cons y ys ih =>
    simp only [substrLB, Bool.or_eq_true, headSegB_iff, ih]
    constructor
    · rintro (⟨t, ht⟩ | ⟨s, t, ht⟩)
      · exact ⟨[], t, by simpa using ht⟩
      · exact ⟨y :: s, t, by simp [ht]⟩
    · rintro ⟨s, t, ht⟩
      cases s with
      | nil =>
        left
        exact ⟨t, by simpa using ht⟩
      | cons z zs =>
        right
        injection ht with h1 h2
        exact ⟨zs, t, h2⟩

theorem pySubstr_iff (nee hay : String) :
    pySubstr nee hay = true ↔ ∃ s t, hay.data = s ++ nee.data ++ t := by
  exact substrLB_iff nee.data hay.data

theorem substrLB_nil_left (b : List Char) : substrLB [] b = true := by
  cases b with
  | nil => rfl
  | cons y ys => simp [substrLB, headSegB]

/-- Errors raised by the MCP server tools (`McpError` with an
`INVALID_PARAMS` code and a message). -/
inductive MCPErr where
  | mcpError (message : String) : MCPErr
deriving Repr, DecidableEq

/-- The data interpolated into `check_answer`'s result string
`correct=...\nground_truth=...\nexplanation=...`. -/
structure CheckResult where
  is_correct : Bool
  ground_truth : String
  explanation : String
deriving Repr, DecidableEq

/-- The verdict of `check_answer` on the two normalized strings:
equal, or ground truth inside the answer, or answer inside the ground
truth. -/
def verdictB (answerN gtN : String) : Bool :=
  (answerN == gtN) || pySubstr gtN answerN || pySubstr answerN gtN

/-- Embedding of `check_answer` from `mcp_server/mcp_hle_server.py`:
normalize the submission, reject empty input, look the question up by id,
normalize the stored ground truth and apply the lenient
equality-or-substring verdict. -/
def check_answer (store : List QuestionRec) (question_id answer : String) :
    Except MCPErr CheckResult :=
  let answerN := pyNorm answer
  if answerN == "" then .error (.mcpError "Answer cannot be empty")
  else
    match store.find? (fun q => q.id == question_id) with
    | none => .error (.mcpError "Unknown question id")
    | some row =>
      let gt := pyNorm row.answer
      .ok ⟨verdictB answerN gt, row.answer, row.explanation⟩

/-- Model of `ORDER BY RANDOM() LIMIT 1`: a seeded uniform pick.  Returns
`none` exactly when the candidate list is empty. -/
def randomPick {α : Type} (seed : Nat) (l : List α) : Option α :=
  l[seed % l.length]?

/-- Embedding of the optional equality filters of
`DatabaseManager.get_random_questions` / `get_adaptive_question`: a clause
`AND field = ?` is added only when the filter is set (Python-truthy, so not
`None` and not `""`) and is not the sentinel `"All"`. -/
def eqClause (filter : Option String) (value : String) : Bool :=
  match filter with
  | none => true
  | some s => if s != "" && s != "All" then value == s else true

/-- The `WHERE` clause of `DatabaseManager.get_random_questions` applied to
one row: optional equality filters on subject, difficulty and
question_type. -/
def get_random_questions_pred (subject difficulty question_type : Option String)
    (q : QuestionRec) : Bool :=
  eqClause subject q.subject && eqClause difficulty q.difficulty &&
    eqClause question_type q.question_type

/-- The candidate set of `DatabaseManager.get_random_questions` (the rows
satisfying its `WHERE` clause, from which `ORDER BY RANDOM() LIMIT n`
draws). -/
def get_random_questions_candidates (store : List QuestionRec)
    (subject difficulty question_type : Option String) : List QuestionRec :=
  store.filter (get_random_questions_pred subject difficulty question_type)

/-- The `AND id NOT IN (...)` clause of `get_adaptive_question`; added only
when `exclude_ids` is non-empty (Python-truthy). -/
def excludeClause (exclude_ids : List String) (q : QuestionRec) : Bool :=
  match exclude_ids with
  | [] => true
  | _ :: _ => !(exclude_ids.any (fun i => i == q.id))

/-- The length-based difficulty proxy of `get_adaptive_question`:
`easy` adds `LENGTH(question) < 120`, `medium` adds
`LENGTH(question) BETWEEN 120 AND 240`, `hard` adds
`LENGTH(question) > 240`; any other value adds no clause. -/
def binClause (difficulty_bin : Option String) (q : QuestionRec) : Bool :=
  if difficulty_bin == some "easy" then decide (q.question.length < 120)
  else if difficulty_bin == some "medium" then
    decide (120 ≤ q.question.length) && decide (q.question.length ≤ 240)
  else if difficulty_bin == some "hard" then decide (240 < q.question.length)
  else true

/-- The candidate set of `DatabaseManager.get_adaptive_question`: equality
filters, id exclusion and the optional length bin. -/
def get_adaptive_candidates (store : List QuestionRec) (exclude_ids : List String)
    (subject difficulty question_type difficulty_bin : Option String) : List QuestionRec :=
  store.filter (fun q =>
    eqClause subject q.subject && eqClause difficulty q.difficulty &&
    eqClause question_type q.question_type && excludeClause exclude_ids q &&
    binClause difficulty_bin q)

/-- Embedding of `DatabaseManager.get_adaptive_question`: one seeded random
pick from the candidate set; `none` when no row matches (the function has
no internal fallback). -/
def get_adaptive_question (seed : Nat) (store : List QuestionRec)
    (exclude_ids : List String)
    (subject difficulty question_type difficulty_bin : Option String) : Option QuestionRec :=
  randomPick seed
    (get_adaptive_candidates store exclude_ids subject difficulty question_type difficulty_bin)

/-- Byte-order (UTF-8 code point) comparison used to model SQLite's
`ORDER BY` on text columns. -/
def listLe : List Char → List Char → Bool
  | [], _ => true
  | _ :: _, [] => false
  | a :: as, b :: bs =>
    if a.toNat < b.toNat then true
    else if b.toNat < a.toNat then false
    else listLe as bs

def strLe (a b : String) : Bool := listLe a.data b.data

def insertSorted (x : String) : List String → List String
  | [] => [x]
  | y :: ys => if strLe x y then x :: y :: ys else y :: insertSorted x ys

def sortStrings : List String → List String
  | [] => []
  | x :: xs => insertSorted x (sortStrings xs)

/-- Embedding of `SELECT DISTINCT subject FROM questions ORDER BY subject`
(`get_all_subjects` in `mcp_hle_server.py`). -/
def get_all_subjects (store : List QuestionRec) : List String :=
  (sortStrings (store.map (fun q => q.subject))).eraseDups

/-- Embedding of `SELECT DISTINCT question_type FROM questions ORDER BY
question_type` (`get_all_question_types` in `mcp_hle_server.py`). -/
def get_all_question_types (store : List QuestionRec) : List String :=
  (sortStrings (store.map (fun q => q.question_type))).eraseDups

/-- The synonym table of `normalize_subject`. -/
def subjectSynonyms (s : String) : String :=
  if s == "maths" then "math"
  else if s == "mathematics" then "math"
  else if s == "bio" then "biology"
  else if s == "chem" then "chemistry"
  else if s == "cs" then "cs/ai"
  else if s == "ai" then "cs/ai"
  else if s == "comp sci" then "cs/ai"
  else s

/-- Python `s.lower()` (ASCII), as applied to the canonical values during
matching (`(subj or "").lower()`). -/
def pyLower (s : String) : String := String.mk (s.data.map Char.toLower)

/-- The bidirectional case-insensitive match of `normalize_subject` /
`normalize_qtype`: input `s` matches canonical `c` when `s == c.lower()`
or `s in c.lower()` or `c.lower() in s`. -/
def canonMatch (s c : String) : Bool :=
  let cl := pyLower c
  s == cl || pySubstr s cl || pySubstr cl s

/-- Embedding of `normalize_subject` from `mcp_hle_server.py`: `None` or
`""` input (Python falsy) yields no filter; otherwise strip+lower, reject
if empty, apply the synonym table, and return the first canonical value
matched case-insensitively in either direction. -/
def normalize_subject (user_subject : Option String) (available : List String) :
    Option String :=
  match user_subject with
  | none => none
  | some u =>
    if u == "" then none
    else
      let s := pyNorm u
      if s == "" then none
      else
        let s := subjectSynonyms s
        available.find? (fun subj => canonMatch s subj)

/-- The phrase map of `normalize_qtype`: common multiple-choice phrasings
are mapped to the canonical stored label `"text"`. -/
def qtypeSynonyms (q : String) : String :=
  if q == "mcq" || q == "mcqs" || q == "multiple choice" ||
     q == "multiple-choice" || q == "choice" then "text"
  else q

/-- Embedding of `normalize_qtype` from `mcp_hle_server.py`. -/
def normalize_qtype (user_qtype : Option String) (available : List String) :
    Option String :=
  match user_qtype with
  | none => none
  | some u =>
    if u == "" then none
    else
      let q := pyNorm u
      if q == "" then none
      else
        let q := qtypeSynonyms q
        available.find? (fun qt => canonMatch q qt)

/-- A clause added by `play_exam` for a normalized (canonical) filter
value: the clause is added only when the canonical value is Python-truthy
(not `None`, not `""`). -/
def canonClause (canon : Option String) (value : String) : Bool :=
  match canon with
  | none => true
  | some s => if s != "" then value == s else true

/-- The candidate set of the first query of `play_exam`: rows matching the
normalized subject and question-type filters. -/
def playExamCandidates (store : List QuestionRec)
    (subject question_type : Option String) : List QuestionRec :=
  let subj_canon := normalize_subject subject (get_all_subjects store)
  let qtype_canon := normalize_qtype question_type (get_all_question_types store)
  store.filter (fun q =>
    canonClause subj_canon q.subject && canonClause qtype_canon q.question_type)

/-- The columns selected by `play_exam`
(`SELECT id, question, subject, difficulty, question_type`). -/
structure QuestionOut where
  id : String
  question : String
  subject : String
  difficulty : String
  question_type : String
deriving Repr, DecidableEq

def toQuestionOut (q : QuestionRec) : QuestionOut :=
  ⟨q.id, q.question, q.subject, q.difficulty, q.question_type⟩

/-- Embedding of `play_exam` from `mcp_hle_server.py`: normalize the
filters, draw one random row from the filtered candidates; if that yields
nothing, retry ignoring the filters entirely; if the table itself is
empty, raise `McpError`.  `seed1`/`seed2` model the two independent
`ORDER BY RANDOM()` draws. -/
def play_exam (seed1 seed2 : Nat) (store : List QuestionRec)
    (subject question_type : Option String) : Except MCPErr QuestionOut :=
  match randomPick seed1 (playExamCandidates store subject question_type) with
  | some row => .ok (toQuestionOut row)
  | none =>
    match randomPick seed2 store with
    | some row => .ok (toQuestionOut row)
    | none => .error (.mcpError "No question available (database empty)")

/-- One step of `DatabaseManager.insert_questions`'s
`INSERT OR IGNORE`: a row whose `id` (the primary key) is already present
is ignored, otherwise it is appended. -/
def insertOne (store : List QuestionRec) (q : QuestionRec) : List QuestionRec :=
  if store.any (fun r => r.id == q.id) then store else store ++ [q]

/-- Embedding of `DatabaseManager.insert_questions`: `executemany` of
`INSERT OR IGNORE`, processing the batch in order. -/
def insert_questions (store : List QuestionRec) (qs : List QuestionRec) : List QuestionRec :=
  qs.foldl insertOne store

/-- Modelled from the spec: the Quiz Session record of §3 (the session
state machine itself is not among the provided sources; only the data
model, registry contract and `submit_answer` steps 1-8 of §4.3/§4.4
describe it). -/
structure QuizSession where
  user_id : String
  questions : List QuestionRec
  current_index : Nat
  correct_count : Nat
deriving Repr, DecidableEq

/-- Modelled from the spec: the Session Registry's in-memory mapping from
user id to active session (§4.3). -/
abbrev Registry := List (String × QuizSession)

/-- Modelled from the spec: `get(user_id) -> Session | none`. -/
def getSess (reg : Registry) (uid : String) : Option QuizSession :=
  (reg.find? (fun p => p.1 == uid)).map (fun p => p.2)

/-- Modelled from the spec: `remove(user_id)`. -/
def removeSess (reg : Registry) (uid : String) : Registry :=
  reg.filter (fun p => !(p.1 == uid))

/-- Store a session under a user id, overwriting any existing one. -/
def putSess (reg : Registry) (uid : String) (sess : QuizSession) : Registry :=
  (uid, sess) :: removeSess reg uid

/-- Modelled from the spec: `start(user_id, questions)` creates or
overwrites the session for that user, cursor and tally at zero (§4.3,
§3). -/
def startSess (reg : Registry) (uid : String) (qs : List QuestionRec) : Registry :=
  putSess reg uid ⟨uid, qs, 0, 0⟩

/-- Modelled from the spec: the error taxonomy of §7 relevant to
`submit_answer`. -/
inductive SubmitErr where
  | invalidInput
  | noActiveSession
  | unknownQuestionId
deriving Repr, DecidableEq

/-- Modelled from the spec: the per-submission result record of §3/§6 —
`is_correct`, `remaining`, and the final score `(correct, total)` on the
last submission. -/
structure SubmitResult where
  is_correct : Bool
  remaining : Nat
  final_score : Option (Nat × Nat)
deriving Repr, DecidableEq

/-- Modelled from the spec: `submit_answer(user_id, raw_answer_text)`
following §4.4 steps 1-8: reject empty normalized input; reject a missing
(or completed) session; fetch the current question's ground truth from the
Question Store; judge with the same verdict algorithm as `check_answer`;
update tally and cursor; on reaching the end remove the session and return
the final score, otherwise store the advanced session. -/
def submit_answer (store : List QuestionRec) (reg : Registry) (uid raw : String) :
    Except SubmitErr (Registry × SubmitResult) :=
  if pyNorm raw == "" then .error .invalidInput
  else
    match getSess reg uid with
    | none => .error .noActiveSession
    | some sess =>
      match sess.questions[sess.current_index]? with
      | none => .error .noActiveSession
      | some q =>
        match store.find? (fun r => r.id == q.id) with
        | none => .error .unknownQuestionId
        | some row =>
          let ok := verdictB (pyNorm raw) (pyNorm row.answer)
          let newCorrect := sess.correct_count + (if ok then 1 else 0)
          let newIndex := sess.current_index + 1
          if newIndex == sess.questions.length then
            .ok (removeSess reg uid, ⟨ok, 0, some (newCorrect, sess.questions.length)⟩)
          else
            .ok (putSess reg uid
                   { sess with current_index := newIndex, correct_count := newCorrect },
                 ⟨ok, sess.questions.length - newIndex, none⟩)

/-- Drive a session: submit the answers in order, returning the registry
and the response to the last submission. -/
def submitAll (store : List QuestionRec) (uid : String) :
    Registry → List String → Except SubmitErr (Registry × SubmitResult)
  | _, [] => .error .noActiveSession
  | reg, a :: rest =>
    match submit_answer store reg uid a with
    | .error e => .error e
    | .ok (regNew, res) =>
      match rest with
      | [] => .ok (regNew, res)
      | _ :: _ => submitAll store uid regNew rest

/-- The number of submissions judged correct when the questions are
answered in order (ground truths looked up in the store, as
`submit_answer` does). -/
def scoreCount (store : List QuestionRec) : List QuestionRec → List String → Nat
  | q :: qs, a :: as =>
    (match store.find? (fun r => r.id == q.id) with
     | some row => if verdictB (pyNorm a) (pyNorm row.answer) then 1 else 0
     | none => 0) + scoreCount store qs as
  | _, _ => 0

/-! Example records used by the concrete parts of the claims. -/

/-- A record whose question text has exactly `n` characters. -/
def qOfLen (n : Nat) : QuestionRec :=
  ⟨"qlen", String.mk (List.replicate n 'a'), "ans", "Math", "", "Intermediate", "", "text", ""⟩

/-- A minimal record with the given id and ground-truth answer. -/
def mkQ (i ans : String) : QuestionRec :=
  ⟨i, "Q?", ans, "Other", "", "Intermediate", "", "text", ""⟩

/-- Claim C2: the difficulty-bin predicate of `get_adaptive_question` classifies
a record by the character length of its question text with exactly the
stated inclusive boundaries: easy iff length < 120, medium iff
120 ≤ length ≤ 240, hard iff length > 240; length exactly 120 is medium
and not easy, length exactly 240 is medium and not hard. -/
theorem difficulty_bin_boundaries :
    (∀ q : QuestionRec,
      (binClause (some "easy") q = true ↔ q.question.length < 120) ∧
      (binClause (some "medium") q = true ↔
        120 ≤ q.question.length ∧ q.question.length ≤ 240) ∧
      (binClause (some "hard") q = true ↔ 240 < q.question.length)) ∧
    ((qOfLen 120).question.length = 120 ∧
      binClause (some "medium") (qOfLen 120) = true ∧
      binClause (some "easy") (qOfLen 120) = false) ∧
    ((qOfLen 240).question.length = 240 ∧
      binClause (some "medium") (qOfLen 240) = true ∧
      binClause (some "hard") (qOfLen 240) = false) := by
  have heasy : ∀ q : QuestionRec,
      binClause (some "easy") q = decide (q.question.length < 120) := fun _ => rfl
  have hmed : ∀ q : QuestionRec,
      binClause (some "medium") q =
        (decide (120 ≤ q.question.length) && decide (q.question.length ≤ 240)) := fun _ => rfl
  have hhard : ∀ q : QuestionRec,
      binClause (some "hard") q = decide (240 < q.question.length) := fun _ => rfl
  have hl120 : (qOfLen 120).question.length = 120 := by
    show (List.replicate 120 'a').length = 120
    rw [List.length_replicate]
  have hl240 : (qOfLen 240).question.length = 240 := by
    show (List.replicate 240 'a').length = 240
    rw [List.length_replicate]
  refine ⟨fun q => ⟨?_, ?_, ?_⟩, ⟨hl120, ?_, ?_⟩, ⟨hl240, ?_, ?_⟩⟩
  · rw [heasy]
    exact decide_eq_true_iff
  · rw [hmed]
    simp
  · rw [hhard]
    exact decide_eq_true_iff
  · rw [hmed, hl120]
    rfl
  · rw [heasy, hl120]
    rfl
  · rw [hmed, hl240]
    rfl
  · rw [hhard, hl240]
    rfl

/-- Claim C6: an unset filter (`none`, or empty string) or the sentinel `"All"`
contributes no equality constraint: the candidate sets of
`get_random_questions` and `get_adaptive_question` with such a filter
value equal the candidate sets with that filter omitted, and with no
filters at all the whole store is the candidate set. -/
theorem all_sentinel_no_constraint :
    ∀ (store : List QuestionRec) (a b : Option String) (excl : List String)
      (bin : Option String),
      (get_random_questions_candidates store (some "All") a b =
        get_random_questions_candidates store none a b) ∧
      (get_random_questions_candidates store a (some "All") b =
        get_random_questions_candidates store a none b) ∧
      (get_random_questions_candidates store a b (some "All") =
        get_random_questions_candidates store a b none) ∧
      (get_adaptive_candidates store excl (some "All") a b bin =
        get_adaptive_candidates store excl none a b bin) ∧
      (get_adaptive_candidates store excl a (some "All") b bin =
        get_adaptive_candidates store excl a none b bin) ∧
      (get_adaptive_candidates store excl a b (some "All") bin =
        get_adaptive_candidates store excl a b none bin) ∧
      get_random_questions_candidates store none none none = store := by
  intro store a b excl bin
  refine ⟨rfl, rfl, rfl, rfl, rfl, rfl, ?_⟩
  exact List.filter_true store

/-- Claim C7: a submission whose trimmed, lowercased text is empty is rejected
with the `InvalidInput` error (`"Answer cannot be empty"`), and this holds
for every store whatsoever — in particular the store is not consulted and
no other failure (such as an unknown-id error) can be reported first. -/
theorem empty_answer_rejected_before_lookup (store : List QuestionRec)
    (question_id answer : String) (h : pyNorm answer = "") :
    check_answer store question_id answer = .error (.mcpError "Answer cannot be empty") := by
  simp [check_answer, h]

theorem empty_answer_rejected_before_lookup_witness :
    pyNorm "   " = "" ∧
    check_answer [mkQ "other" "42"] "q1" "   " =
      .error (.mcpError "Answer cannot be empty") :=
  ⟨by decide, empty_answer_rejected_before_lookup [mkQ "other" "42"] "q1" "   " (by decide)⟩

/-- Claim C8: a non-empty submission against a question id absent from the store
fails with the `UnknownQuestionId` error (`"Unknown question id"`): no
verdict is returned and no retry happens — the result is exactly this
error. -/
theorem unknown_question_id_surfaced (store : List QuestionRec)
    (question_id answer : String) (hne : pyNorm answer ≠ "")
    (habs : ∀ q ∈ store, q.id ≠ question_id) :
    check_answer store question_id answer = .error (.mcpError "Unknown question id") := by
  have hfind : store.find? (fun q => q.id == question_id) = none := by
    refine List.find?_eq_none.mpr (fun q hq => ?_)
    simp [habs q hq]
  simp [check_answer, hfind, hne]

theorem unknown_question_id_surfaced_witness :
    pyNorm "my answer" ≠ "" ∧
    check_answer [mkQ "other" "42"] "q1" "my answer" =
      .error (.mcpError "Unknown question id") :=
  ⟨by decide, unknown_question_id_surfaced [mkQ "other" "42"] "q1" "my answer"
    (by decide) (by decide)⟩

/-- The verdict boolean holds exactly when the normalized strings are
equal, or the normalized ground truth occurs inside the normalized answer,
or conversely. -/
theorem verdictB_iff (ansN gtN : String) :
    verdictB ansN gtN = true ↔
      ansN = gtN ∨ (∃ s t, ansN.data = s ++ gtN.data ++ t) ∨
        (∃ s t, gtN.data = s ++ ansN.data ++ t) := by
  simp [verdictB, Bool.or_eq_true, pySubstr_iff, beq_iff_eq, or_assoc]

/-- On a found row and a non-empty normalized submission, `check_answer`
returns the verdict record for that row. -/
theorem check_answer_found (store : List QuestionRec) (question_id answer : String)
    (row : QuestionRec) (hne : pyNorm answer ≠ "")
    (hrow : store.find? (fun q => q.id == question_id) = some row) :
    check_answer store question_id answer =
      .ok ⟨verdictB (pyNorm answer) (pyNorm row.answer), row.answer, row.explanation⟩ := by
  simp [check_answer, hrow, hne]

/-- Claim C1: `check_answer` judges a submission correct iff, after trimming and
lowercasing both strings, they are equal or either normalized string is a
substring of the other; in particular ground truth `"42"` with submission
`"the answer is 42"` is correct, `"Paris"` with `"paris"` is correct, and
`"A"` with `"B"` is incorrect. -/
theorem answer_check_verdict_rule (store : List QuestionRec)
    (question_id answer : String) (row : QuestionRec)
    (hne : pyNorm answer ≠ "")
    (hrow : store.find? (fun q => q.id == question_id) = some row) :
    (check_answer store question_id answer = .ok ⟨true, row.answer, row.explanation⟩ ↔
      (pyNorm answer = pyNorm row.answer ∨
        (∃ s t, (pyNorm answer).data = s ++ (pyNorm row.answer).data ++ t) ∨
        (∃ s t, (pyNorm row.answer).data = s ++ (pyNorm answer).data ++ t))) ∧
    check_answer [mkQ "q1" "42"] "q1" "the answer is 42" = .ok ⟨true, "42", ""⟩ ∧
    check_answer [mkQ "q1" "Paris"] "q1" "paris" = .ok ⟨true, "Paris", ""⟩ ∧
    check_answer [mkQ "q1" "A"] "q1" "B" = .ok ⟨false, "A", ""⟩ := by
  refine ⟨?_, by rfl, by rfl, by rfl⟩
  rw [check_answer_found store question_id answer row hne hrow]
  rw [← verdictB_iff]
  constructor
  · intro h
    injection h with h
    exact congrArg CheckResult.is_correct h
  · intro h
    rw [h]

theorem answer_check_verdict_rule_witness :
    pyNorm "the answer is 42" ≠ "" ∧
    ((check_answer [mkQ "q1" "42"] "q1" "the answer is 42" =
        .ok ⟨true, (mkQ "q1" "42").answer, (mkQ "q1" "42").explanation⟩ ↔
      (pyNorm "the answer is 42" = pyNorm (mkQ "q1" "42").answer ∨
        (∃ s t, (pyNorm "the answer is 42").data =
          s ++ (pyNorm (mkQ "q1" "42").answer).data ++ t) ∨
        (∃ s t, (pyNorm (mkQ "q1" "42").answer).data =
          s ++ (pyNorm "the answer is 42").data ++ t))) ∧
      check_answer [mkQ "q1" "42"] "q1" "the answer is 42" = .ok ⟨true, "42", ""⟩ ∧
      check_answer [mkQ "q1" "Paris"] "q1" "paris" = .ok ⟨true, "Paris", ""⟩ ∧
      check_answer [mkQ "q1" "A"] "q1" "B" = .ok ⟨false, "A", ""⟩) :=
  ⟨by decide, answer_check_verdict_rule [mkQ "q1" "42"] "q1" "the answer is 42"
    (mkQ "q1" "42") (by decide) (by decide)⟩

/-- Claim C10: against a record stored with empty answer text the normalized
ground truth is the empty string, which occurs inside every normalized
submission, so every submission that passes the non-empty input check is
judged correct, and no submission is ever judged incorrect against such a
record. -/
theorem empty_ground_truth_always_correct (store : List QuestionRec)
    (question_id : String) (row : QuestionRec)
    (hrow : store.find? (fun q => q.id == question_id) = some row)
    (hgt : row.answer = "") :
    (∀ answer, pyNorm answer ≠ "" →
      check_answer store question_id answer = .ok ⟨true, row.answer, row.explanation⟩) ∧
    (∀ answer res, check_answer store question_id answer = .ok res →
      res.is_correct = true) := by
  have hnorm : pyNorm row.answer = "" := by rw [hgt]; rfl
  have hverd : ∀ answer, verdictB (pyNorm answer) (pyNorm row.answer) = true := by
    intro answer
    rw [hnorm]
    have hd : ("" : String).data = [] := rfl
    simp [verdictB, pySubstr, hd, substrLB_nil_left]
  have hmain : ∀ answer, pyNorm answer ≠ "" →
      check_answer store question_id answer = .ok ⟨true, row.answer, row.explanation⟩ := by
    intro answer hne
    rw [check_answer_found store question_id answer row hne hrow, hverd answer]
  refine ⟨hmain, ?_⟩
  intro answer res h
  by_cases hb : pyNorm answer = ""
  · simp [check_answer, hb] at h
  · rw [hmain answer hb] at h
    injection h with h
    rw [← h]

theorem empty_ground_truth_always_correct_witness :
    [mkQ "q1" ""].find? (fun q => q.id == "q1") = some (mkQ "q1" "") ∧
    (mkQ "q1" "").answer = "" ∧
    (∀ answer, pyNorm answer ≠ "" →
      check_answer [mkQ "q1" ""] "q1" answer =
        .ok ⟨true, (mkQ "q1" "").answer, (mkQ "q1" "").explanation⟩) ∧
    (∀ answer res, check_answer [mkQ "q1" ""] "q1" answer = .ok res →
      res.is_correct = true) :=
  ⟨by decide, by decide,
    empty_ground_truth_always_correct [mkQ "q1" ""] "q1" (mkQ "q1" "")
      (by decide) (by decide)⟩

/-- A non-empty list yields a pick, and the pick is a member. -/
theorem randomPick_mem {α : Type} (seed : Nat) (l : List α) (hne : l ≠ []) :
    ∃ x ∈ l, randomPick seed l = some x := by
  have hlen : 0 < l.length := List.length_pos.mpr hne
  have hlt : seed % l.length < l.length := Nat.mod_lt _ hlen
  exact ⟨l[seed % l.length], List.getElem_mem hlt, List.getElem?_eq_getElem hlt⟩

theorem randomPick_nil {α : Type} (seed : Nat) : randomPick seed ([] : List α) = none := by
  simp [randomPick]

/-- Claim C3: when the filtered candidate set of `play_exam` is empty, the
operation retries with all filters dropped and returns a pick from the
entire unfiltered store; when the store itself is empty it raises the
`McpError` `"No question available (database empty)"` rather than
returning any default record. -/
theorem fallback_policy (seed1 seed2 : Nat) (store : List QuestionRec)
    (subject question_type : Option String)
    (h : playExamCandidates store subject question_type = []) :
    (store = [] →
      play_exam seed1 seed2 store subject question_type =
        .error (.mcpError "No question available (database empty)")) ∧
    (store ≠ [] →
      ∃ q ∈ store, play_exam seed1 seed2 store subject question_type =
        .ok (toQuestionOut q)) := by
  constructor
  · rintro rfl
    simp [play_exam, h, randomPick_nil]
  · intro hs
    obtain ⟨q, hq, hpick⟩ := randomPick_mem seed2 store hs
    refine ⟨q, hq, ?_⟩
    simp [play_exam, h, randomPick_nil, hpick]

/-- A two-record store in which the subject filter `"math"` and the
question-type filter `"image"` each match a canonical value but no single
record satisfies both. -/
def demoStore2 : List QuestionRec :=
  [⟨"q1", "Q1?", "a1", "Math", "", "Intermediate", "", "text", ""⟩,
   ⟨"q2", "Q2?", "a2", "Physics", "", "Intermediate", "", "image", ""⟩]

theorem fallback_policy_witness :
    playExamCandidates demoStore2 (some "math") (some "image") = [] ∧
    ((demoStore2 = [] →
      play_exam 0 1 demoStore2 (some "math") (some "image") =
        .error (.mcpError "No question available (database empty)")) ∧
    (demoStore2 ≠ [] →
      ∃ q ∈ demoStore2, play_exam 0 1 demoStore2 (some "math") (some "image") =
        .ok (toQuestionOut q))) :=
  ⟨by decide, fallback_policy 0 1 demoStore2 (some "math") (some "image") (by decide)⟩

theorem insertOne_any_mono (store : List QuestionRec) (q : QuestionRec)
    (f : QuestionRec → Bool) (h : store.any f = true) :
    (insertOne store q).any f = true := by
  by_cases hc : store.any (fun r => r.id == q.id) = true
  · simpa [insertOne, hc] using h
  · have hc' : store.any (fun r => r.id == q.id) = false := by simpa using hc
    simp [insertOne, hc', List.any_append, h]

theorem insertOne_any_self (store : List QuestionRec) (q : QuestionRec) :
    (insertOne store q).any (fun r => r.id == q.id) = true := by
  by_cases hc : store.any (fun r => r.id == q.id) = true
  · simp [insertOne, hc]
  · have hc' : store.any (fun r => r.id == q.id) = false := by simpa using hc
    simp [insertOne, hc', List.any_append]

theorem insert_questions_any_mono (qs : List QuestionRec) (store : List QuestionRec)
    (f : QuestionRec → Bool) (h : store.any f = true) :
    (insert_questions store qs).any f = true := by
  induction qs generalizing store with
  | nil => exact h
  | cons p ps ih => exact ih _ (insertOne_any_mono store p f h)

/-- After a bulk insert, every id of the batch is present in the store. -/
theorem insert_questions_any (store : List QuestionRec) (qs : List QuestionRec) :
    ∀ q' ∈ qs, (insert_questions store qs).any (fun r => r.id == q'.id) = true := by
  induction qs generalizing store with
  | nil =>
    intro q' h
    cases h
  | cons p ps ih =>
    intro q' hmem
    rcases List.mem_cons.mp hmem with rfl | hmem
    · exact insert_questions_any_mono ps _ _ (insertOne_any_self store q')
    · exact ih (insertOne store p) q' hmem

/-- A bulk insert of records whose ids are all already present changes
nothing. -/
theorem insert_questions_noop (qs : List QuestionRec) (store : List QuestionRec)
    (h : ∀ q' ∈ qs, store.any (fun r => r.id == q'.id) = true) :
    insert_questions store qs = store := by
  induction qs generalizing store with
  | nil => rfl
  | cons p ps ih =>
    have hone : insertOne store p = store := by
      simp [insertOne, h p (List.mem_cons_self p ps)]
    show insert_questions (insertOne store p) ps = store
    rw [hone]
    exact ih store (fun q' hq' => h q' (List.mem_cons_of_mem p hq'))

theorem insertOne_nodup (store : List QuestionRec) (q : QuestionRec)
    (h : (store.map (fun r => r.id)).Nodup) :
    ((insertOne store q).map (fun r => r.id)).Nodup := by
  by_cases hc : store.any (fun r => r.id == q.id) = true
  · simpa [insertOne, hc] using h
  · have hc' : store.any (fun r => r.id == q.id) = false := by simpa using hc
    have hnotin : q.id ∉ store.map (fun r => r.id) := by
      rw [List.any_eq_false] at hc'
      intro hmem
      obtain ⟨r, hr, hrid⟩ := List.mem_map.mp hmem
      exact absurd (by simp [hrid] : (r.id == q.id) = true) (hc' r hr)
    have hdisj : (store.map (fun r => r.id)).Disjoint [q.id] := by
      intro a ha hb
      rw [List.mem_singleton] at hb
      exact hnotin (hb ▸ ha)
    have hall : ∀ x ∈ store, ¬x.id = q.id := by
      rw [List.any_eq_false] at hc'
      intro x hx
      simpa using hc' x hx
    simp only [insertOne, hc', if_false, Bool.false_eq_true, List.map_append,
      List.map_cons, List.map_nil, List.nodup_append]
    exact ⟨h, List.nodup_singleton _, hdisj⟩

theorem insert_questions_nodup (qs store : List QuestionRec)
    (h : (store.map (fun r => r.id)).Nodup) :
    ((insert_questions store qs).map (fun r => r.id)).Nodup := by
  induction qs generalizing store with
  | nil => exact h
  | cons p ps ih => exact ih _ (insertOne_nodup store p h)

/-- Inserting a record with a fresh id twice leaves exactly one copy. -/
theorem insert_twice_one_copy (store : List QuestionRec) (q : QuestionRec)
    (hfresh : ∀ r ∈ store, r.id ≠ q.id) :
    (insert_questions store [q, q]).filter (fun r => r.id == q.id) = [q] := by
  have hany : store.any (fun r => r.id == q.id) = false := by
    rw [List.any_eq_false]
    intro r hr
    simp [hfresh r hr]
  have h1 : insertOne store q = store ++ [q] := by simp [insertOne, hany]
  have h2 : insert_questions store [q, q] = store ++ [q] := by
    show insertOne (insertOne store q) q = store ++ [q]
    rw [h1]
    have : (store ++ [q]).any (fun r => r.id == q.id) = true := by
      simp [List.any_append]
    simp [insertOne, this]
  rw [h2, List.filter_append]
  have hfl : store.filter (fun r => r.id == q.id) = [] := by
    rw [List.filter_eq_nil_iff]
    intro r hr
    simp [hfresh r hr]
  simp [hfl]

/-- Claim C5: inserting a record whose id already exists is a no-op; bulk insert
is idempotent (re-inserting a batch changes nothing, and inserting the
same fresh record twice leaves exactly one copy); and id uniqueness is
preserved by any bulk insert. -/
theorem insert_duplicate_id_noop (store1 store2 store : List QuestionRec)
    (q1 q2 : QuestionRec) (qs : List QuestionRec)
    (hdup : ∃ r ∈ store1, r.id = q1.id)
    (hfresh : ∀ r ∈ store2, r.id ≠ q2.id)
    (hnodup : (store.map (fun r => r.id)).Nodup) :
    insertOne store1 q1 = store1 ∧
    (insert_questions store2 [q2, q2]).filter (fun r => r.id == q2.id) = [q2] ∧
    insert_questions (insert_questions store qs) qs = insert_questions store qs ∧
    ((insert_questions store qs).map (fun r => r.id)).Nodup := by
  refine ⟨?_, insert_twice_one_copy store2 q2 hfresh, ?_,
    insert_questions_nodup qs store hnodup⟩
  · obtain ⟨r, hr, hrid⟩ := hdup
    have : store1.any (fun r => r.id == q1.id) = true :=
      List.any_eq_true.mpr ⟨r, hr, by simp [hrid]⟩
    simp [insertOne, this]
  · exact insert_questions_noop qs _ (insert_questions_any store qs)

theorem insert_duplicate_id_noop_witness :
    (∃ r ∈ [mkQ "q1" "a"], r.id = (mkQ "q1" "b").id) ∧
    (∀ r ∈ [mkQ "q0" "x"], r.id ≠ (mkQ "q1" "a").id) ∧
    (([mkQ "q1" "a"].map (fun r => r.id)).Nodup) ∧
    (insertOne [mkQ "q1" "a"] (mkQ "q1" "b") = [mkQ "q1" "a"] ∧
      (insert_questions [mkQ "q0" "x"] [mkQ "q1" "a", mkQ "q1" "a"]).filter
        (fun r => r.id == (mkQ "q1" "a").id) = [mkQ "q1" "a"] ∧
      insert_questions (insert_questions [mkQ "q1" "a"] [mkQ "q1" "c", mkQ "q2" "d"])
          [mkQ "q1" "c", mkQ "q2" "d"] =
        insert_questions [mkQ "q1" "a"] [mkQ "q1" "c", mkQ "q2" "d"] ∧
      ((insert_questions [mkQ "q1" "a"] [mkQ "q1" "c", mkQ "q2" "d"]).map
        (fun r => r.id)).Nodup) :=
  ⟨by decide, by decide, by decide,
    insert_duplicate_id_noop [mkQ "q1" "a"] [mkQ "q0" "x"] [mkQ "q1" "a"]
      (mkQ "q1" "b") (mkQ "q1" "a") [mkQ "q1" "c", mkQ "q2" "d"]
      (by decide) (by decide) (by decide)⟩

/-- The matching relation of the spec on a mapped input `s` and canonical
value `c`: `s` equals, contains, or is contained in the lowercased
canonical value. -/
def matchRel (s c : String) : Prop :=
  s = pyLower c ∨ (∃ p t, (pyLower c).data = p ++ s.data ++ t) ∨
    (∃ p t, s.data = p ++ (pyLower c).data ++ t)

theorem canonMatch_iff (s c : String) : canonMatch s c = true ↔ matchRel s c := by
  simp [canonMatch, matchRel, Bool.or_eq_true, pySubstr_iff, beq_iff_eq, or_assoc]

/-- Claim C4, counterexample: for the whitespace-only input `" "` the trimmed
lowercased, synonym-mapped input is `""`, which is contained in the
lowercased canonical value `"math"`, yet `normalize_subject` returns
`none` (filter unset) instead of that canonical value: the claim's
match-and-return rule does not hold for inputs that normalize to the
empty string. -/
theorem normalize_empty_input_counterexample :
    subjectSynonyms (pyNorm " ") = "" ∧
    matchRel (subjectSynonyms (pyNorm " ")) "math" ∧
    normalize_subject (some " ") ["math"] = none := by
  refine ⟨by decide, ?_, by decide⟩
  refine Or.inr (Or.inl ⟨[], ("math" : String).data, ?_⟩)
  decide

/-- Claim C4 as amended: provided the trimmed lowercased input is non-empty, both
normalizers apply their synonym table to it and return a canonical value
exactly when one matches case-insensitively in either direction (equal,
contains, or is contained); when no canonical value matches the result is
`none`, which the selection layer treats as an unset filter rather than an
error. -/
theorem normalize_forgiving_matching (u : String) (available : List String)
    (hne : pyNorm u ≠ "") :
    (∀ c, normalize_subject (some u) available = some c →
      c ∈ available ∧ matchRel (subjectSynonyms (pyNorm u)) c) ∧
    (normalize_subject (some u) available = none ↔
      ∀ c ∈ available, ¬matchRel (subjectSynonyms (pyNorm u)) c) ∧
    (∀ c, normalize_qtype (some u) available = some c →
      c ∈ available ∧ matchRel (qtypeSynonyms (pyNorm u)) c) ∧
    (normalize_qtype (some u) available = none ↔
      ∀ c ∈ available, ¬matchRel (qtypeSynonyms (pyNorm u)) c) ∧
    (∀ store question_type,
      normalize_subject (some u) (get_all_subjects store) = none →
      playExamCandidates store (some u) question_type =
        playExamCandidates store none question_type) := by
  have hu : (u == "") = false := by
    rw [beq_eq_false_iff_ne]
    intro h
    exact hne (by rw [h]; rfl)
  have hn : (pyNorm u == "") = false := by
    rw [beq_eq_false_iff_ne]
    exact hne
  have hsub : normalize_subject (some u) available =
      available.find? (fun subj => canonMatch (subjectSynonyms (pyNorm u)) subj) := by
    simp [normalize_subject, hu, hn]
  have hqt : normalize_qtype (some u) available =
      available.find? (fun qt => canonMatch (qtypeSynonyms (pyNorm u)) qt) := by
    simp [normalize_qtype, hu, hn]
  refine ⟨?_, ?_, ?_, ?_, ?_⟩
  · intro c hc
    rw [hsub] at hc
    exact ⟨List.mem_of_find?_eq_some hc, (canonMatch_iff _ _).mp (List.find?_some hc)⟩
  · rw [hsub, List.find?_eq_none]
    constructor
    · intro h c hc hm
      exact h c hc ((canonMatch_iff _ _).mpr hm)
    · intro h c hc hm
      exact h c hc ((canonMatch_iff _ _).mp hm)
  · intro c hc
    rw [hqt] at hc
    exact ⟨List.mem_of_find?_eq_some hc, (canonMatch_iff _ _).mp (List.find?_some hc)⟩
  · rw [hqt, List.find?_eq_none]
    constructor
    · intro h c hc hm
      exact h c hc ((canonMatch_iff _ _).mpr hm)
    · intro h c hc hm
      exact h c hc ((canonMatch_iff _ _).mp hm)
  · intro store question_type hnone
    simp only [playExamCandidates]
    rw [hnone]
    rfl

theorem normalize_forgiving_matching_witness :
    pyNorm "Maths" ≠ "" ∧
    normalize_subject (some "Maths") ["Math", "Physics"] = some "Math" ∧
    ((∀ c, normalize_subject (some "Maths") ["Math", "Physics"] = some c →
      c ∈ ["Math", "Physics"] ∧ matchRel (subjectSynonyms (pyNorm "Maths")) c) ∧
    (normalize_subject (some "Maths") ["Math", "Physics"] = none ↔
      ∀ c ∈ ["Math", "Physics"], ¬matchRel (subjectSynonyms (pyNorm "Maths")) c) ∧
    (∀ c, normalize_qtype (some "Maths") ["Math", "Physics"] = some c →
      c ∈ ["Math", "Physics"] ∧ matchRel (qtypeSynonyms (pyNorm "Maths")) c) ∧
    (normalize_qtype (some "Maths") ["Math", "Physics"] = none ↔
      ∀ c ∈ ["Math", "Physics"], ¬matchRel (qtypeSynonyms (pyNorm "Maths")) c) ∧
    (∀ store question_type,
      normalize_subject (some "Maths") (get_all_subjects store) = none →
      playExamCandidates store (some "Maths") question_type =
        playExamCandidates store none question_type)) :=
  ⟨by decide, by decide,
    normalize_forgiving_matching "Maths" ["Math", "Physics"] (by decide)⟩

theorem getSess_putSess (reg : Registry) (uid : String) (sess : QuizSession) :
    getSess (putSess reg uid sess) uid = some sess := by
  simp [getSess, putSess, List.find?]

theorem getSess_removeSess (reg : Registry) (uid : String) :
    getSess (removeSess reg uid) uid = none := by
  have h : (removeSess reg uid).find? (fun p => p.1 == uid) = none := by
    rw [List.find?_eq_none]
    intro p hp
    have h2 := (List.mem_filter.mp hp).2
    simp only [Bool.not_eq_true'] at h2
    simp [h2]
  simp [getSess, h]

/-- One step of the session machine on an active session with a well-formed
registry entry: the submission is judged, the tally and cursor advance, and
the session is either stored back or (on the last question) removed with
the final score attached. -/
theorem submit_answer_step (store : List QuestionRec) (reg : Registry)
    (uid a : String) (qs : List QuestionRec) (i c : Nat) (qi : QuestionRec)
    (hna : pyNorm a ≠ "") (hreg : getSess reg uid = some ⟨uid, qs, i, c⟩)
    (hqi : qs[i]? = some qi)
    (hfind : store.find? (fun r => r.id == qi.id) = some qi) :
    submit_answer store reg uid a =
      if i + 1 = qs.length then
        .ok (removeSess reg uid,
          ⟨verdictB (pyNorm a) (pyNorm qi.answer), 0,
            some (c + (if verdictB (pyNorm a) (pyNorm qi.answer) then 1 else 0), qs.length)⟩)
      else
        .ok (putSess reg uid ⟨uid, qs, i + 1,
              c + (if verdictB (pyNorm a) (pyNorm qi.answer) then 1 else 0)⟩,
          ⟨verdictB (pyNorm a) (pyNorm qi.answer), qs.length - (i + 1), none⟩) := by
  simp [submit_answer, hna, hreg, hqi, hfind]

theorem submitAll_single (store : List QuestionRec) (uid a : String)
    (reg regNew : Registry) (res : SubmitResult)
    (h : submit_answer store reg uid a = .ok (regNew, res)) :
    submitAll store uid reg [a] = .ok (regNew, res) := by
  simp only [submitAll, h]

theorem submitAll_cons_ok (store : List QuestionRec) (uid a r : String)
    (rs : List String) (reg regNew : Registry) (res : SubmitResult)
    (h : submit_answer store reg uid a = .ok (regNew, res)) :
    submitAll store uid reg (a :: r :: rs) = submitAll store uid regNew (r :: rs) := by
  simp only [submitAll, h]

/-- Running the remaining answers of a session that sits at cursor `i`
with tally `c` completes the quiz: the final response carries
`(c + score of the remaining pairs, total)` and the session is gone. -/
theorem submitAll_completes (store : List QuestionRec) (uid : String)
    (qs : List QuestionRec)
    (hq : ∀ q ∈ qs, store.find? (fun r => r.id == q.id) = some q) :
    ∀ (answers : List String) (reg : Registry) (i c : Nat),
      answers ≠ [] →
      i + answers.length = qs.length →
      (∀ a ∈ answers, pyNorm a ≠ "") →
      getSess reg uid = some ⟨uid, qs, i, c⟩ →
      ∃ b regF,
        submitAll store uid reg answers =
          .ok (regF, ⟨b, 0, some (c + scoreCount store (qs.drop i) answers, qs.length)⟩) ∧
        getSess regF uid = none := by
  intro answers
  induction answers with
  | nil =>
    intro reg i c hne
    exact absurd rfl hne
  | cons a rest ih =>
    intro reg i c _ hlen hans hreg
    have hilt : i < qs.length := by
      simp only [List.length_cons] at hlen
      omega
    have hqi : qs[i]? = some qs[i] := List.getElem?_eq_getElem hilt
    have hfind := hq qs[i] (List.getElem_mem hilt)
    have hna : pyNorm a ≠ "" := hans a (List.mem_cons_self a rest)
    have hstep := submit_answer_step store reg uid a qs i c qs[i] hna hreg hqi hfind
    have hdrop : qs.drop i = qs[i] :: qs.drop (i + 1) := List.drop_eq_getElem_cons hilt
    cases rest with
    | nil =>
      have hieq : i + 1 = qs.length := by
        simp only [List.length_cons, List.length_nil] at hlen
        omega
      rw [if_pos hieq] at hstep
      refine ⟨verdictB (pyNorm a) (pyNorm qs[i].answer), removeSess reg uid, ?_,
        getSess_removeSess reg uid⟩
      rw [submitAll_single store uid a reg _ _ hstep, hdrop]
      simp [scoreCount, hfind]
    | cons r rs =>
      have hineq : ¬(i + 1 = qs.length) := by
        simp only [List.length_cons] at hlen
        omega
      rw [if_neg hineq] at hstep
      have hreg' := getSess_putSess reg uid
        ⟨uid, qs, i + 1, c + (if verdictB (pyNorm a) (pyNorm qs[i].answer) then 1 else 0)⟩
      obtain ⟨b, regF, hrun, hnone⟩ := ih
        (putSess reg uid
          ⟨uid, qs, i + 1, c + (if verdictB (pyNorm a) (pyNorm qs[i].answer) then 1 else 0)⟩)
        (i + 1) (c + (if verdictB (pyNorm a) (pyNorm qs[i].answer) then 1 else 0))
        (by simp) (by simp only [List.length_cons] at hlen ⊢; omega)
        (fun x hx => hans x (List.mem_cons_of_mem a hx)) hreg'
      refine ⟨b, regF, ?_, hnone⟩
      rw [submitAll_cons_ok store uid a r rs reg _ _ hstep, hrun, hdrop]
      simp [scoreCount, hfind, Nat.add_assoc]

/-- Claim C9: starting a session with the questions `qs` and submitting exactly
`qs.length` non-empty answers completes the quiz: the session is absent
from the registry afterwards, the last response carries the final score
`(number of submissions judged correct, total)`, and once removed the
session accepts no further answers (`NoActiveSession`). -/
theorem session_lifecycle (store : List QuestionRec) (reg : Registry) (uid : String)
    (qs : List QuestionRec) (answers : List String)
    (hq : ∀ q ∈ qs, store.find? (fun r => r.id == q.id) = some q)
    (hqs : qs ≠ [])
    (hlen : answers.length = qs.length)
    (hans : ∀ a ∈ answers, pyNorm a ≠ "") :
    ∃ b regF,
      submitAll store uid (startSess reg uid qs) answers =
        .ok (regF, ⟨b, 0, some (scoreCount store qs answers, qs.length)⟩) ∧
      getSess regF uid = none ∧
      ∀ extra, pyNorm extra ≠ "" →
        submit_answer store regF uid extra = .error .noActiveSession := by
  have hansne : answers ≠ [] := by
    intro h
    rw [h, List.length_nil] at hlen
    exact hqs (List.length_eq_zero.mp hlen.symm)
  have hstart : getSess (startSess reg uid qs) uid = some ⟨uid, qs, 0, 0⟩ :=
    getSess_putSess reg uid ⟨uid, qs, 0, 0⟩
  obtain ⟨b, regF, hrun, hnone⟩ := submitAll_completes store uid qs hq answers
    (startSess reg uid qs) 0 0 hansne (by omega) hans hstart
  rw [List.drop_zero, Nat.zero_add] at hrun
  refine ⟨b, regF, hrun, hnone, ?_⟩
  intro extra hex
  simp [submit_answer, hex, hnone]

theorem session_lifecycle_witness :
    (∀ q ∈ [mkQ "q1" "Paris", mkQ "q2" "42"],
      [mkQ "q1" "Paris", mkQ "q2" "42"].find? (fun r => r.id == q.id) = some q) ∧
    (∃ b regF,
      submitAll [mkQ "q1" "Paris", mkQ "q2" "42"] "user7"
          (startSess [] "user7" [mkQ "q1" "Paris", mkQ "q2" "42"])
          ["paris", "wrong"] =
        .ok (regF, ⟨b, 0,
          some (scoreCount [mkQ "q1" "Paris", mkQ "q2" "42"]
            [mkQ "q1" "Paris", mkQ "q2" "42"] ["paris", "wrong"], 2)⟩) ∧
      getSess regF "user7" = none ∧
      ∀ extra, pyNorm extra ≠ "" →
        submit_answer [mkQ "q1" "Paris", mkQ "q2" "42"] regF "user7" extra =
          .error .noActiveSession) :=
  ⟨by decide,
    session_lifecycle [mkQ "q1" "Paris", mkQ "q2" "42"] [] "user7"
      [mkQ "q1" "Paris", mkQ "q2" "42"] ["paris", "wrong"]
      (by decide) (by decide) (by decide) (by decide)⟩

end HLE
